import Mathlib

/-!
Verification of the FundsPulse spend-history and reporting engine.

The Go source is shallowly embedded: `float64` values are modelled as exact
rationals (`ℚ`), the JSON/filesystem persistence of `internal/history` is
modelled as an explicit file state (`HistFile`), and `time.Time` is reduced
to the pieces the code actually consumes (the formatted day key string and
the day-of-month number).
-/

namespace FundsPulse

namespace History

/-- `DailySpend` captures spend per day (internal/history, struct DailySpend). -/
structure DailySpend where
  date : String
  amount : ℚ
deriving DecidableEq, Repr

/-- `Record` describes history file contents (internal/history, struct Record). -/
structure Record where
  lastBalance : ℚ
  lastUpdated : String
  dailySpends : List DailySpend
deriving DecidableEq, Repr

/-- `Result` collects fresh spend and average information. -/
structure Result where
  spend : ℚ
  average : ℚ
deriving DecidableEq, Repr

/-- `Manager` persists balance history for a configured window of `days`. -/
structure Manager where
  days : ℕ
deriving DecidableEq, Repr

/-- `NewManager` builds a history manager, clamping the window to at least 1
(`if days < 1 { days = 1 }`). Go's `int` argument is modelled as `ℤ`. -/
def NewManager (days : ℤ) : Manager :=
  if days < 1 then ⟨1⟩ else ⟨days.toNat⟩

/-- `computeSpend` returns positive spend when the balance decreases:
`diff := previous - current; if diff < 0 { return 0 }; return diff`. -/
def computeSpend (previous current : ℚ) : ℚ :=
  let diff := previous - current
  if diff < 0 then 0 else diff

/-- `average` of a list of daily spends: 0 for the empty list, otherwise the
sum of the amounts divided by the length. -/
def average (items : List DailySpend) : ℚ :=
  if items = [] then 0
  else (items.map DailySpend.amount).sum / items.length

/-- The same-day overwrite / append step of `Update`:
if the list is empty or the last point's date differs from `dayKey`, append a
new point; otherwise overwrite the last point's amount with `spend`. -/
def applyDay (ds : List DailySpend) (dayKey : String) (spend : ℚ) : List DailySpend :=
  match ds.getLast? with
  | none => ds ++ [⟨dayKey, spend⟩]
  | some last =>
    if last.date ≠ dayKey then ds ++ [⟨dayKey, spend⟩]
    else ds.dropLast ++ [⟨last.date, spend⟩]

/-- The truncation step of `Update`:
`if len(ds) > m.days { ds = ds[len(ds)-m.days:] }`. -/
def truncate (days : ℕ) (ds : List DailySpend) : List DailySpend :=
  if ds.length > days then ds.drop (ds.length - days) else ds

/-- The pure core of `Manager.Update`: consumes the loaded record and the fresh
balance, refreshes history, and returns the new record plus spend stats.
`dayKey` stands for `now.Format("2006-01-02")` and `nowStr` for
`now.Format(time.RFC3339)`. -/
def Manager.update (m : Manager) (history : Record) (balance : ℚ)
    (dayKey nowStr : String) : Record × Result :=
  let spend := computeSpend history.lastBalance balance
  let ds := truncate m.days (applyDay history.dailySpends dayKey spend)
  (⟨balance, nowStr, ds⟩, ⟨spend, average ds⟩)

end History

end FundsPulse

namespace FundsPulse
namespace History

theorem getLast?_drop_of_lt {α : Type} (l : List α) (n : ℕ) (h : n < l.length) :
    (l.drop n).getLast? = l.getLast? := by
  rw [List.getLast?_eq_getElem?, List.getLast?_eq_getElem?, List.getElem?_drop,
    List.length_drop]
  congr 1
  omega

theorem truncate_length_le (days : ℕ) (ds : List DailySpend) :
    (truncate days ds).length ≤ days := by
  unfold truncate
  split
  · simp only [List.length_drop]
    omega
  · omega

theorem truncate_suffix (days : ℕ) (ds : List DailySpend) :
    truncate days ds <:+ ds := by
  unfold truncate
  split
  · exact List.drop_suffix _ _
  · exact List.suffix_refl _

theorem truncate_eq_of_le {days : ℕ} {ds : List DailySpend} (h : ds.length ≤ days) :
    truncate days ds = ds := by
  unfold truncate
  rw [if_neg (by omega)]

theorem applyDay_ne_nil (ds : List DailySpend) (day : String) (s : ℚ) :
    applyDay ds day s ≠ [] := by
  unfold applyDay
  cases ds.getLast? with
  | none => simp
  | some last =>
    show (if last.date ≠ day then ds ++ [⟨day, s⟩]
      else ds.dropLast ++ [⟨last.date, s⟩]) ≠ []
    split <;> simp

theorem applyDay_getLast (ds : List DailySpend) (day : String) (s : ℚ) :
    (applyDay ds day s).getLast? = some ⟨day, s⟩ := by
  unfold applyDay
  cases ds.getLast? with
  | none => exact List.getLast?_concat _
  | some last =>
    show (if last.date ≠ day then ds ++ [(⟨day, s⟩ : DailySpend)]
      else ds.dropLast ++ [(⟨last.date, s⟩ : DailySpend)]).getLast? = some ⟨day, s⟩
    by_cases hd : last.date = day
    · rw [if_neg (by simp [hd]), hd]
      exact List.getLast?_concat _
    · rw [if_pos hd]
      exact List.getLast?_concat _

theorem applyDay_of_ne {ds : List DailySpend} {day : String} {last : DailySpend}
    (h : ds.getLast? = some last) (hne : last.date ≠ day) (s : ℚ) :
    applyDay ds day s = ds ++ [⟨day, s⟩] := by
  unfold applyDay
  rw [h]
  show (if last.date ≠ day then ds ++ [⟨day, s⟩]
    else ds.dropLast ++ [⟨last.date, s⟩]) = ds ++ [⟨day, s⟩]
  rw [if_pos hne]

theorem applyDay_of_eq {ds : List DailySpend} {day : String} {last : DailySpend}
    (h : ds.getLast? = some last) (heq : last.date = day) (s : ℚ) :
    applyDay ds day s = ds.dropLast ++ [⟨day, s⟩] := by
  unfold applyDay
  rw [h]
  show (if last.date ≠ day then ds ++ [⟨day, s⟩]
    else ds.dropLast ++ [⟨last.date, s⟩]) = ds.dropLast ++ [⟨day, s⟩]
  rw [if_neg (by simp [heq]), heq]

theorem ne_nil_of_getLast?_eq_some {α : Type} {l : List α} {a : α}
    (h : l.getLast? = some a) : l ≠ [] := by
  intro hl
  rw [hl] at h
  simp at h

theorem truncate_getLast? {days : ℕ} (hd : 1 ≤ days) {ds : List DailySpend}
    (_h : ds ≠ []) : (truncate days ds).getLast? = ds.getLast? := by
  unfold truncate
  split
  · rename_i hgt
    apply getLast?_drop_of_lt
    omega
  · rfl

/-- C1: for every previous balance `p` and current balance `c`, the spend
computed by a history update equals `p - c` when `p ≥ c`, and equals `0`
when `c > p`: a balance increase never yields negative spend. -/
theorem computeSpend_eq_sub_of_ge_and_zero_of_lt (p c : ℚ) :
    (c ≤ p → computeSpend p c = p - c) ∧ (p < c → computeSpend p c = 0) := by
  constructor
  · intro h
    unfold computeSpend
    simp only
    rw [if_neg]
    simpa using h
  · intro h
    unfold computeSpend
    simp only
    rw [if_pos]
    simpa using h

/-- Witness for C1 at concrete balances: a drop from 7 to 4 yields spend 3,
and a top-up from 4 to 7 yields spend 0. -/
theorem computeSpend_eq_sub_of_ge_and_zero_of_lt_witness :
    computeSpend 7 4 = 7 - 4 ∧ computeSpend 4 7 = 0 :=
  ⟨(computeSpend_eq_sub_of_ge_and_zero_of_lt 7 4).1 (by norm_num),
   (computeSpend_eq_sub_of_ge_and_zero_of_lt 4 7).2 (by norm_num)⟩

/-- C2: after any update the stored sequence holds at most `m.days` points;
the kept points are a suffix of the overwrite/append result (oldest dropped
first), and nothing is dropped while the cap is not exceeded. -/
theorem update_caps_window (m : Manager) (rec : Record) (b : ℚ)
    (day nowStr : String) :
    ((m.update rec b day nowStr).1.dailySpends.length ≤ m.days) ∧
    ((m.update rec b day nowStr).1.dailySpends <:+
      applyDay rec.dailySpends day (computeSpend rec.lastBalance b)) ∧
    ((applyDay rec.dailySpends day (computeSpend rec.lastBalance b)).length ≤ m.days →
      (m.update rec b day nowStr).1.dailySpends =
        applyDay rec.dailySpends day (computeSpend rec.lastBalance b)) :=
  ⟨truncate_length_le _ _, truncate_suffix _ _, fun h => truncate_eq_of_le h⟩

/-- Witness for C2: updating a fresh record under a 2-day window keeps the
single new point, and the resulting length respects the cap. -/
theorem update_caps_window_witness :
    ((applyDay ([] : List DailySpend) "2026-01-01" (computeSpend 10 4)).length
        ≤ (NewManager 2).days) ∧
    ((NewManager 2).update ⟨10, "", []⟩ 4 "2026-01-01" "t").1.dailySpends =
      applyDay ([] : List DailySpend) "2026-01-01" (computeSpend 10 4) :=
  ⟨by decide,
   (update_caps_window (NewManager 2) ⟨10, "", []⟩ 4 "2026-01-01" "t").2.2 (by decide)⟩

/-- C3: a second update on the same calendar day overwrites the latest
point's amount with the second call's spend (computed from the first call's
balance), leaving the length and the earlier points unchanged; a record whose
last point carries a different date gets a new point appended instead. -/
theorem update_sameDay_overwrite (m : Manager) (rec : Record) (b1 b2 : ℚ)
    (day n1 n2 : String) (hd : 1 ≤ m.days) :
    ((m.update (m.update rec b1 day n1).1 b2 day n2).1.dailySpends.length
      = (m.update rec b1 day n1).1.dailySpends.length) ∧
    ((m.update (m.update rec b1 day n1).1 b2 day n2).1.dailySpends
      = (m.update rec b1 day n1).1.dailySpends.dropLast
          ++ [⟨day, computeSpend b1 b2⟩]) ∧
    ((m.update (m.update rec b1 day n1).1 b2 day n2).1.dailySpends.getLast?
      = some ⟨day, computeSpend b1 b2⟩) ∧
    (∀ last, rec.dailySpends.getLast? = some last → last.date ≠ day →
      rec.dailySpends.length < m.days →
      (m.update rec b1 day n1).1.dailySpends
        = rec.dailySpends ++ [⟨day, computeSpend rec.lastBalance b1⟩]) := by
  have hds1 : (m.update rec b1 day n1).1.dailySpends
      = truncate m.days (applyDay rec.dailySpends day
          (computeSpend rec.lastBalance b1)) := rfl
  have hlast1 : (m.update rec b1 day n1).1.dailySpends.getLast?
      = some ⟨day, computeSpend rec.lastBalance b1⟩ := by
    rw [hds1, truncate_getLast? hd (applyDay_ne_nil _ _ _), applyDay_getLast]
  have hne1 : (m.update rec b1 day n1).1.dailySpends ≠ [] :=
    ne_nil_of_getLast?_eq_some hlast1
  have hlen1 : (m.update rec b1 day n1).1.dailySpends.length ≤ m.days := by
    rw [hds1]
    exact truncate_length_le _ _
  have hbal1 : (m.update rec b1 day n1).1.lastBalance = b1 := rfl
  have happly2 : applyDay (m.update rec b1 day n1).1.dailySpends day
        (computeSpend b1 b2)
      = (m.update rec b1 day n1).1.dailySpends.dropLast
          ++ [⟨day, computeSpend b1 b2⟩] :=
    applyDay_of_eq hlast1 rfl _
  have hlen2 : (applyDay (m.update rec b1 day n1).1.dailySpends day
        (computeSpend b1 b2)).length
      = (m.update rec b1 day n1).1.dailySpends.length := by
    rw [happly2]
    simp only [List.length_append, List.length_dropLast, List.length_cons,
      List.length_nil]
    have := List.length_pos.mpr hne1
    omega
  have hds2 : (m.update (m.update rec b1 day n1).1 b2 day n2).1.dailySpends
      = truncate m.days (applyDay (m.update rec b1 day n1).1.dailySpends day
          (computeSpend ((m.update rec b1 day n1).1).lastBalance b2)) := rfl
  have hfinal : (m.update (m.update rec b1 day n1).1 b2 day n2).1.dailySpends
      = (m.update rec b1 day n1).1.dailySpends.dropLast
          ++ [⟨day, computeSpend b1 b2⟩] := by
    rw [hds2, hbal1, truncate_eq_of_le (by rw [hlen2]; exact hlen1), happly2]
  refine ⟨?_, hfinal, ?_, ?_⟩
  · rw [hfinal]
    simp only [List.length_append, List.length_dropLast, List.length_cons,
      List.length_nil]
    have := List.length_pos.mpr hne1
    omega
  · rw [hfinal]
    exact List.getLast?_concat _
  · intro last hlast hne hroom
    rw [hds1, applyDay_of_ne hlast hne]
    apply truncate_eq_of_le
    simp only [List.length_append, List.length_cons, List.length_nil]
    omega

/-- Witness for C3: with a 7-day window, balance 100 then 90 then 80 on the
same day leaves one point holding the last call's spend of 10. -/
theorem update_sameDay_overwrite_witness :
    (1 ≤ (NewManager 7).days) ∧
    (((NewManager 7).update ((NewManager 7).update ⟨0, "", []⟩ 90 "2026-02-03" "t1").1
        80 "2026-02-03" "t2").1.dailySpends.getLast?
      = some ⟨"2026-02-03", computeSpend 90 80⟩) :=
  ⟨by decide,
   (update_sameDay_overwrite (NewManager 7) ⟨0, "", []⟩ 90 80 "2026-02-03" "t1" "t2"
     (by decide)).2.2.1⟩

theorem average_nil : average [] = 0 := rfl

theorem average_singleton (p : DailySpend) : average [p] = p.amount := by
  unfold average
  simp

theorem average_mul_length (items : List DailySpend) :
    average items * (items.length : ℚ) = (items.map DailySpend.amount).sum := by
  unfold average
  split
  · rename_i h
    simp [h]
  · rename_i h
    have hlen : ((items.length : ℚ)) ≠ 0 := by
      simp only [ne_eq, Nat.cast_eq_zero, List.length_eq_zero]
      exact h
    rw [div_mul_cancel₀ _ hlen]

/-- C4: the average returned by an update is the arithmetic mean of exactly
the points stored after the overwrite/append and truncation steps: it times
the stored length equals the stored amounts' sum, it is 0 when no points
remain, and it equals the single point's amount when one point remains. -/
theorem update_average_spec (m : Manager) (rec : Record) (b : ℚ)
    (day nowStr : String) :
    ((m.update rec b day nowStr).2.average
        * (((m.update rec b day nowStr).1.dailySpends.length : ℚ))
      = (((m.update rec b day nowStr).1.dailySpends.map DailySpend.amount).sum)) ∧
    ((m.update rec b day nowStr).1.dailySpends = [] →
      (m.update rec b day nowStr).2.average = 0) ∧
    (∀ p, (m.update rec b day nowStr).1.dailySpends = [p] →
      (m.update rec b day nowStr).2.average = p.amount) := by
  have hav : (m.update rec b day nowStr).2.average
      = average ((m.update rec b day nowStr).1.dailySpends) := rfl
  refine ⟨?_, ?_, ?_⟩
  · rw [hav]
    exact average_mul_length _
  · intro h
    rw [hav, h, average_nil]
  · intro p h
    rw [hav, h, average_singleton]

/-- Witness for C4: a fresh record updated with balance 90 stores one point
of spend 0, and the returned average equals that point's amount. -/
theorem update_average_spec_witness :
    ((NewManager 7).update ⟨0, "", []⟩ 90 "2026-02-03" "t").2.average
      = (⟨"2026-02-03", (0 : ℚ)⟩ : DailySpend).amount :=
  (update_average_spec (NewManager 7) ⟨0, "", []⟩ 90 "2026-02-03" "t").2.2
    ⟨"2026-02-03", (0 : ℚ)⟩
    (by norm_num [Manager.update, NewManager, applyDay, truncate, computeSpend])

/-- The persisted state of one history key. `missing` models a path for which
`os.Open` fails with a not-exist error, `openFailed` any other open error,
`corrupt` a file whose contents fail to decode, and `stored` a decodable
record. -/
inductive HistFile where
  | missing
  | openFailed (msg : String)
  | corrupt (msg : String)
  | stored (r : Record)
deriving DecidableEq, Repr

/-- `Manager.load`: an absent file yields the zero record without error; an
open or decode failure is surfaced as an error. -/
def load (f : HistFile) : Except String Record :=
  match f with
  | .missing => .ok ⟨0, "", []⟩
  | .openFailed msg => .error ("open history: " ++ msg)
  | .corrupt msg => .error ("decode history: " ++ msg)
  | .stored r => .ok r

/-- `Manager.Update` including persistence. A load failure returns the error
before anything is written. The environment's outcome for the subsequent
`save` (`MkdirAll`/`Create`/`Encode`/`Close`/`Rename`, any of which Go can
fail) is an explicit input `saveErr`: on a write failure the error is
returned and, by the write-to-temp-then-rename pattern, the previously
stored file is untouched; on success the refreshed record replaces the file
and the spend stats are returned. -/
def Manager.updateFile (m : Manager) (f : HistFile) (balance : ℚ)
    (dayKey nowStr : String) (saveErr : Option String) :
    HistFile × Except String Result :=
  match load f with
  | .error e => (f, .error e)
  | .ok history =>
    let out := m.update history balance dayKey nowStr
    match saveErr with
    | some e => (f, .error e)
    | none => (.stored out.1, .ok out.2)

/-- C8: loading an absent history file succeeds with the zero record, and an
update on an absent file succeeds whenever the subsequent write does; a file
that exists but fails to decode makes the update return the decode error —
whatever the write outcome would have been — and leaves the stored file
exactly as it was (no silent reset); a write failure is likewise surfaced as
an error without replacing the stored file. -/
theorem load_missing_updateFile_corrupt (m : Manager) (msg wmsg : String)
    (b : ℚ) (day nowStr : String) (saveErr : Option String) (r : Record) :
    (load .missing = .ok ⟨0, "", []⟩) ∧
    (∃ res, (m.updateFile .missing b day nowStr none).2 = .ok res) ∧
    ((m.updateFile (.corrupt msg) b day nowStr saveErr).2
      = .error ("decode history: " ++ msg)) ∧
    ((m.updateFile (.corrupt msg) b day nowStr saveErr).1 = .corrupt msg) ∧
    ((m.updateFile (.stored r) b day nowStr (some wmsg)).2 = .error wmsg) ∧
    ((m.updateFile (.stored r) b day nowStr (some wmsg)).1 = .stored r) :=
  ⟨rfl, ⟨_, rfl⟩, rfl, rfl, rfl, rfl⟩

end History

namespace Checker

/-- One computed balance entry (struct balanceReport in internal/checker).
`daysLeft = none` models `math.Inf(1)`, the "infinite runway" marker. -/
structure balanceReport where
  currency : String
  balance : ℚ
  average : ℚ
  daysLeft : Option ℚ
  warn : Bool
deriving DecidableEq, Repr

/-- The days-left / warn computation of `processService` for one entry:
`daysLeft` starts at infinity and `warn` at false; for any non-postpaid
billing mode, `daysLeft` becomes `amount / avg` when `avg > 0`, and `warn`
is set exactly when `daysLeft` is not infinity and is below the configured
minimum. -/
def entryProjection (billingMode : String) (minimumDaysLeft amount avg : ℚ) :
    Option ℚ × Bool :=
  if billingMode ≠ "postpaid" then
    let daysLeft : Option ℚ := if avg > 0 then some (amount / avg) else none
    let warn : Bool :=
      match daysLeft with
      | some d => decide (d < minimumDaysLeft)
      | none => false
    (daysLeft, warn)
  else (none, false)

/-- C5: for a prepaid reading, days-left is `balance / average` when the
average is positive and infinity (`none`) otherwise, and the warn flag is
true exactly when days-left is finite and strictly below the configured
minimum; a postpaid reading gets infinite days-left and never warns. -/
theorem entryProjection_spec (minDays amount avg : ℚ) :
    (0 < avg →
      (entryProjection "prepaid" minDays amount avg).1 = some (amount / avg)) ∧
    (avg ≤ 0 → (entryProjection "prepaid" minDays amount avg).1 = none) ∧
    ((entryProjection "prepaid" minDays amount avg).2 = true ↔
      ∃ d, (entryProjection "prepaid" minDays amount avg).1 = some d ∧
        d < minDays) ∧
    (entryProjection "postpaid" minDays amount avg = (none, false)) := by
  have hpre : ("prepaid" : String) ≠ "postpaid" := by decide
  refine ⟨?_, ?_, ?_, ?_⟩
  · intro h
    simp only [entryProjection, if_pos hpre, if_pos h]
  · intro h
    simp only [entryProjection, if_pos hpre, if_neg (not_lt.mpr h)]
  · by_cases h : 0 < avg
    · simp only [entryProjection, if_pos hpre, if_pos h]
      simp
    · simp only [entryProjection, if_pos hpre, if_neg h]
      simp
  · simp [entryProjection]

/-- Witness for C5: balance 10 against average 5 yields two days left, and a
zero average yields infinite days left. -/
theorem entryProjection_spec_witness :
    ((0 : ℚ) < 5 ∧
      (entryProjection "prepaid" 3 10 5).1 = some (10 / 5)) ∧
    ((0 : ℚ) ≤ 0 ∧ (entryProjection "prepaid" 3 10 0).1 = none) :=
  ⟨⟨by norm_num, (entryProjection_spec 3 10 5).1 (by norm_num)⟩,
   ⟨le_refl 0, (entryProjection_spec 3 10 0).2.1 (le_refl 0)⟩⟩

/-- Zero-pads a digit string on the left up to `len` characters. -/
def leftPadZeros (s : String) (len : ℕ) : String :=
  if s.length < len then String.mk (List.replicate (len - s.length) '0') ++ s
  else s

/-- Fixed-point rendering of a rational with `prec` decimal places, rounding
to the nearest value; models Go's `%.<prec>f` on the exactly-represented
number. -/
def formatFixed (q : ℚ) (prec : ℕ) : String :=
  let scaled : ℤ := round (q * (10 : ℚ) ^ prec)
  let sign := if scaled < 0 then "-" else ""
  let n := scaled.natAbs
  if prec = 0 then sign ++ toString (n / 10 ^ prec)
  else sign ++ toString (n / 10 ^ prec) ++ "."
    ++ leftPadZeros (toString (n % 10 ^ prec)) prec

/-- `formatAmount`: recognized single-character currency symbols are put in
front of the two-decimal amount, any other non-empty label goes after it,
and an empty label yields the bare number. -/
def formatAmount (value : ℚ) (currency : String) : String :=
  if currency ≠ "" then
    if currency = "$" ∨ currency = "€" ∨ currency = "£" ∨ currency = "¥" then
      currency ++ formatFixed value 2
    else formatFixed value 2 ++ " " ++ currency
  else formatFixed value 2

/-- Go's default `%f` rendering (six decimal places). -/
def formatFloatDefault (q : ℚ) : String := formatFixed q 6

/-- `formatDays`: `"n/a"` for infinite days-left, else one decimal place
followed by `" days"`. -/
def formatDays (days : Option ℚ) : String :=
  match days with
  | none => "n/a"
  | some d => formatFixed d 1 ++ " days"

/-- The sequence of strings `composeMessage` writes to its builder, in
order. `overallWarn` is the sticky warning accumulator carried through the
loop; the trailing `"\n\n"` separator is written for every entry except the
last. -/
def composeChunks (serviceName label billingMode : String) :
    Bool → List balanceReport → List String
  | _, [] => []
  | overallWarn, entry :: rest =>
    let ow := overallWarn || entry.warn
    (["Service: " ++ serviceName ++ (if ow then " !!!" else "") ++ "\n\n",
      label ++ ": "
        ++ formatAmount
            (if billingMode = "postpaid" then -entry.balance else entry.balance)
            entry.currency
        ++ "\n",
      "📉 Avg daily: " ++ formatFloatDefault entry.average ++ "\n"]
      ++ (if billingMode ≠ "postpaid"
          then ["📆 Enough for: " ++ formatDays entry.daysLeft] else [])
      ++ (if rest.isEmpty then [] else ["\n\n"]))
    ++ composeChunks serviceName label billingMode ow rest

/-- `composeMessage` renders one notification text for a service from its
per-entry reports: the concatenation of the written chunks, starting with
label "Debt" for postpaid services and "Balance" otherwise. -/
def composeMessage (serviceName billingMode : String)
    (entries : List balanceReport) : String :=
  String.join (composeChunks serviceName
    (if billingMode = "postpaid" then "Debt" else "Balance")
    billingMode false entries)

theorem marker_mem_composeChunks (serviceName label billingMode : String) :
    ∀ (entries : List balanceReport) (ow : Bool),
      (∃ e ∈ entries, e.warn = true) →
      ("Service: " ++ serviceName ++ " !!!" ++ "\n\n")
        ∈ composeChunks serviceName label billingMode ow entries := by
  intro entries
  induction entries with
  | nil =>
    intro ow h
    simp at h
  | cons entry rest ih =>
    intro ow h
    by_cases hw : entry.warn = true
    · simp only [composeChunks, hw, Bool.or_true]
      apply List.mem_append_left
      apply List.mem_append_left
      apply List.mem_append_left
      simp
    · obtain ⟨e, he, hwe⟩ := h
      rcases List.mem_cons.mp he with rfl | hrest
      · exact absurd hwe hw
      · simp only [composeChunks]
        exact List.mem_append_right _ (ih (ow || entry.warn) ⟨e, hrest, hwe⟩)

/-- C6: if any sub-reading of an entity is in warning state, the rendered
message carries an entity header chunk suffixed with " !!!", no matter which
sub-reading tripped the warning; the message itself is the concatenation of
those chunks. -/
theorem composeMessage_any_warn_marker (serviceName billingMode : String)
    (entries : List balanceReport) (h : ∃ e ∈ entries, e.warn = true) :
    ("Service: " ++ serviceName ++ " !!!" ++ "\n\n")
      ∈ composeChunks serviceName
          (if billingMode = "postpaid" then "Debt" else "Balance")
          billingMode false entries ∧
    composeMessage serviceName billingMode entries
      = String.join (composeChunks serviceName
          (if billingMode = "postpaid" then "Debt" else "Balance")
          billingMode false entries) :=
  ⟨marker_mem_composeChunks _ _ _ entries false h, rfl⟩

/-- Witness for C6: with two sub-readings of which only the last one warns,
the marked header appears among the message chunks. -/
theorem composeMessage_any_warn_marker_witness :
    ("Service: " ++ "svc" ++ " !!!" ++ "\n\n")
      ∈ composeChunks "svc"
          (if "prepaid" = "postpaid" then "Debt" else "Balance")
          "prepaid" false
          [⟨"", 1, 1, some 1, false⟩, ⟨"", 1, 1, some 1, true⟩] :=
  (composeMessage_any_warn_marker "svc" "prepaid"
    [⟨"", 1, 1, some 1, false⟩, ⟨"", 1, 1, some 1, true⟩]
    ⟨⟨"", 1, 1, some 1, true⟩, by simp, rfl⟩).1

/-- Static service configuration (struct StaticServiceConfig in
internal/config): a fixed monthly payment reminder. -/
structure StaticServiceConfig where
  name : String
  currencySymbol : String
  amount : ℚ
  billingDay : ℤ
  notifyBeforeDays : ℤ
  urlPay : String
  cardPay : String
deriving DecidableEq, Repr

/-- The exact "due today" kind string. -/
def dueTodayKind : String := "🔥 Payment due today 🔥"

/-- The exact advance-reminder kind string for a given notify-before-days. -/
def reminderKind (notifyBeforeDays : ℤ) : String :=
  "⏰️️️️️️️Payment reminder (📌" ++ toString notifyBeforeDays ++ " days left)"

/-- `staticServiceNoticeKind`: decides whether a static service produces a
notice on day-of-month `today`, and which kind. A `none` result models the
`("", false)` return. -/
def staticServiceNoticeKind (svc : StaticServiceConfig) (today : ℤ) :
    Option String :=
  if today = svc.billingDay then some dueTodayKind
  else if svc.notifyBeforeDays ≤ 0 then none
  else
    let notifyDay := svc.billingDay - svc.notifyBeforeDays
    let wrapped := if notifyDay < 0 then notifyDay + 30 else notifyDay
    if 0 < wrapped ∧ today = wrapped then some (reminderKind svc.notifyBeforeDays)
    else none

/-- C9: on the billing day itself the due-today notice fires (whatever
notify-before-days is); otherwise, with a positive notify-before-days, the
advance reminder fires exactly when today equals the notify day (billing day
minus notify-before-days, plus 30 when that difference is negative) and that
notify day is positive; in every other case no notice is produced. -/
theorem staticServiceNoticeKind_spec (svc : StaticServiceConfig) (today : ℤ) :
    (today = svc.billingDay →
      staticServiceNoticeKind svc today = some dueTodayKind) ∧
    (today ≠ svc.billingDay → svc.notifyBeforeDays ≤ 0 →
      staticServiceNoticeKind svc today = none) ∧
    (∀ nd : ℤ, today ≠ svc.billingDay → 0 < svc.notifyBeforeDays →
      nd = (if svc.billingDay - svc.notifyBeforeDays < 0
            then svc.billingDay - svc.notifyBeforeDays + 30
            else svc.billingDay - svc.notifyBeforeDays) →
      ((0 < nd ∧ today = nd →
          staticServiceNoticeKind svc today
            = some (reminderKind svc.notifyBeforeDays)) ∧
        (¬(0 < nd ∧ today = nd) →
          staticServiceNoticeKind svc today = none))) := by
  refine ⟨?_, ?_, ?_⟩
  · intro h
    simp only [staticServiceNoticeKind, if_pos h]
  · intro h hle
    simp only [staticServiceNoticeKind, if_neg h, if_pos hle]
  · intro nd h hpos hnd
    constructor
    · intro hfire
      simp only [staticServiceNoticeKind, if_neg h, if_neg (not_le.mpr hpos)]
      rw [if_pos]
      rw [← hnd]
      exact hfire
    · intro hnofire
      simp only [staticServiceNoticeKind, if_neg h, if_neg (not_le.mpr hpos)]
      rw [if_neg]
      rw [← hnd]
      exact hnofire

/-- Witness for C9, the spec's own example: billing day 5 with 3
notify-before-days reminds on day 2 and announces "due today" on day 5. -/
theorem staticServiceNoticeKind_spec_witness :
    (staticServiceNoticeKind ⟨"s", "", 1, 5, 3, "", ""⟩ 5 = some dueTodayKind) ∧
    (staticServiceNoticeKind ⟨"s", "", 1, 5, 3, "", ""⟩ 2
      = some (reminderKind 3)) :=
  ⟨(staticServiceNoticeKind_spec ⟨"s", "", 1, 5, 3, "", ""⟩ 5).1 rfl,
   ((staticServiceNoticeKind_spec ⟨"s", "", 1, 5, 3, "", ""⟩ 2).2.2 2
     (by decide) (by decide) (by decide)).1 (by decide)⟩

theorem reminderKind_ne_dueTodayKind (n : ℤ) : reminderKind n ≠ dueTodayKind := by
  intro heq
  have hdata := congrArg String.data heq
  unfold reminderKind at hdata
  rw [String.data_append, String.data_append] at hdata
  have h1 : ("⏰️️️️️️️Payment reminder (📌" : String).data.head? = some '⏰' := rfl
  have h2 : (dueTodayKind : String).data.head? = some '🔥' := rfl
  have h3 := congrArg List.head? hdata
  rw [List.head?_append, List.head?_append] at h3
  rw [h1] at h3
  rw [h2] at h3
  simp at h3

/-- C10: the evaluator yields at most one kind per day and the due-today
kind takes precedence: on the billing day the result is always the
due-today notice and never the advance reminder, even when a wrapped notify
day coincides with the billing day. -/
theorem staticServiceNoticeKind_dueToday_precedence (svc : StaticServiceConfig)
    (today : ℤ) (h : today = svc.billingDay) :
    staticServiceNoticeKind svc today = some dueTodayKind ∧
    (∀ n : ℤ, reminderKind n ≠ dueTodayKind) ∧
    (∀ k, staticServiceNoticeKind svc today = some k → k = dueTodayKind) := by
  refine ⟨?_, fun n => reminderKind_ne_dueTodayKind n, ?_⟩
  · simp only [staticServiceNoticeKind, if_pos h]
  · intro k hk
    simp only [staticServiceNoticeKind, if_pos h, Option.some_inj] at hk
    exact hk.symm

/-- Witness for C10: notify-before-days 30 wraps the notify day onto the
billing day 5 itself, yet day 5 yields the due-today notice. -/
theorem staticServiceNoticeKind_dueToday_precedence_witness :
    staticServiceNoticeKind ⟨"s", "", 1, 5, 30, "", ""⟩ 5 = some dueTodayKind :=
  (staticServiceNoticeKind_dueToday_precedence ⟨"s", "", 1, 5, 30, "", ""⟩ 5 rfl).1

/-- The observable outcome of one monitored service inside `RunOnce`: the
result of `processService` (fetch, history update and message composition
collapsed into one fallible step, as in the code), the notifier's response
to the report, and the notifier's response to the failure notification
(which the code only logs). -/
structure ServiceRun where
  name : String
  processResult : Except String String
  notifyReportErr : Option String
  notifyFailureErr : Option String
deriving Repr

/-- The observable outcome of one static service inside `RunOnce`: the
notice message when one fires today, and the notifier's response. -/
structure StaticRun where
  notice : Option String
  notifyErr : Option String
deriving DecidableEq, Repr

/-- The failure notification text `RunOnce` sends when a service errs. -/
def failureMessage (name err : String) : String :=
  "Service: " ++ name ++ "\nError: " ++ err

/-- `if firstErr == nil { firstErr = err }`. -/
def recordErr (firstErr : Option String) (e : String) : Option String :=
  match firstErr with
  | none => some e
  | some f => some f

/-- The monitored-services loop of `RunOnce`, carrying the first recorded
error and the messages handed to the notifier so far: a failed service
sends a failure notification (whose own delivery error is only logged) and
the loop continues; a successful service sends its report, recording any
delivery error. -/
def runServices : Option String → List String → List ServiceRun →
    Option String × List String
  | firstErr, sent, [] => (firstErr, sent)
  | firstErr, sent, s :: rest =>
    match s.processResult with
    | .error e =>
      runServices (recordErr firstErr e) (sent ++ [failureMessage s.name e]) rest
    | .ok report =>
      match s.notifyReportErr with
      | some e => runServices (recordErr firstErr e) (sent ++ [report]) rest
      | none => runServices firstErr (sent ++ [report]) rest

/-- The static-services loop of `RunOnce`: services with no notice today
are skipped; a fired notice is sent, recording any delivery error. -/
def runStatics : Option String → List String → List StaticRun →
    Option String × List String
  | firstErr, sent, [] => (firstErr, sent)
  | firstErr, sent, st :: rest =>
    match st.notice with
    | none => runStatics firstErr sent rest
    | some msg =>
      match st.notifyErr with
      | some e => runStatics (recordErr firstErr e) (sent ++ [msg]) rest
      | none => runStatics firstErr (sent ++ [msg]) rest

/-- `RunOnce`: all monitored services, then all static services; yields the
first recorded error (none when the run was clean) and the ordered list of
messages handed to the notifier. -/
def runOnce (services : List ServiceRun) (statics : List StaticRun) :
    Option String × List String :=
  let out := runServices none [] services
  runStatics out.1 out.2 statics

/-- Specification view: the error one monitored service contributes to the
run status (its processing error, else its report delivery error). -/
def serviceErrSpec (s : ServiceRun) : Option String :=
  match s.processResult with
  | .error e => some e
  | .ok _ => s.notifyReportErr

/-- Specification view: the message a monitored service always hands to the
notifier (its report on success, a failure notification on error). -/
def serviceMsgSpec (s : ServiceRun) : String :=
  match s.processResult with
  | .error e => failureMessage s.name e
  | .ok report => report

/-- Specification view: the error a static service contributes to the run
status. -/
def staticErrSpec (st : StaticRun) : Option String :=
  match st.notice with
  | none => none
  | some _ => st.notifyErr

/-- Specification view: the accumulated first error, given the errors still
to come. -/
def firstErrAcc (fe : Option String) (errs : List (Option String)) :
    Option String :=
  match fe with
  | some f => some f
  | none => errs.reduceOption.head?

theorem firstErrAcc_nil (fe : Option String) : firstErrAcc fe [] = fe := by
  cases fe <;> rfl

theorem firstErrAcc_cons_some (fe : Option String) (e : String)
    (errs : List (Option String)) :
    firstErrAcc (recordErr fe e) errs = firstErrAcc fe (some e :: errs) := by
  cases fe <;>
    simp [firstErrAcc, recordErr, List.reduceOption_cons_of_some]

theorem firstErrAcc_cons_none (fe : Option String)
    (errs : List (Option String)) :
    firstErrAcc fe errs = firstErrAcc fe (none :: errs) := by
  cases fe <;>
    simp [firstErrAcc, List.reduceOption_cons_of_none]

theorem runServices_eq (l : List ServiceRun) : ∀ (fe : Option String)
    (sent : List String),
    runServices fe sent l
      = (firstErrAcc fe (l.map serviceErrSpec), sent ++ l.map serviceMsgSpec) := by
  induction l with
  | nil =>
    intro fe sent
    simp [runServices, firstErrAcc_nil]
  | cons s rest ih =>
    intro fe sent
    cases hp : s.processResult with
    | error e =>
      simp only [runServices, hp, ih, List.map_cons, serviceErrSpec,
        serviceMsgSpec]
      rw [firstErrAcc_cons_some]
      simp [List.append_assoc]
    | ok report =>
      cases hn : s.notifyReportErr with
      | some e =>
        simp only [runServices, hp, hn, ih, List.map_cons, serviceErrSpec,
          serviceMsgSpec]
        rw [firstErrAcc_cons_some]
        simp [hn, List.append_assoc]
      | none =>
        simp only [runServices, hp, hn, ih, List.map_cons, serviceErrSpec,
          serviceMsgSpec]
        rw [← firstErrAcc_cons_none]
        simp [hn, List.append_assoc]

theorem runStatics_eq (l : List StaticRun) : ∀ (fe : Option String)
    (sent : List String),
    runStatics fe sent l
      = (firstErrAcc fe (l.map staticErrSpec),
         sent ++ l.filterMap StaticRun.notice) := by
  induction l with
  | nil =>
    intro fe sent
    simp [runStatics, firstErrAcc_nil]
  | cons st rest ih =>
    intro fe sent
    cases hnot : st.notice with
    | none =>
      simp only [runStatics, hnot, ih, List.map_cons, staticErrSpec]
      rw [← firstErrAcc_cons_none]
      simp [List.filterMap_cons, hnot]
    | some msg =>
      cases hn : st.notifyErr with
      | some e =>
        simp only [runStatics, hnot, hn, ih, List.map_cons, staticErrSpec]
        rw [firstErrAcc_cons_some]
        simp [hn, List.filterMap_cons, hnot, List.append_assoc]
      | none =>
        simp only [runStatics, hnot, hn, ih, List.map_cons, staticErrSpec]
        rw [← firstErrAcc_cons_none]
        simp [hn, List.filterMap_cons, hnot, List.append_assoc]

theorem firstErrAcc_append (l1 l2 : List (Option String)) :
    firstErrAcc (firstErrAcc none l1) l2
      = (l1 ++ l2).reduceOption.head? := by
  rw [List.reduceOption_append]
  cases h : l1.reduceOption with
  | nil =>
    simp [firstErrAcc, h]
  | cons e t =>
    simp [firstErrAcc, h]

/-- C7: a run always hands one message per monitored service to the
notifier (the report on success, the failure notification on error) and one
message per fired static reminder, regardless of earlier failures, and
returns the first error contributed by any service or static reminder
(none when the run was clean). -/
theorem runOnce_spec (services : List ServiceRun) (statics : List StaticRun) :
    runOnce services statics
      = ((services.map serviceErrSpec
            ++ statics.map staticErrSpec).reduceOption.head?,
         services.map serviceMsgSpec
           ++ statics.filterMap StaticRun.notice) := by
  unfold runOnce
  rw [runServices_eq, runStatics_eq]
  simp only [List.nil_append]
  rw [firstErrAcc_append]

end Checker
end FundsPulse
